import Mathlib

/-!
Shallow embedding of the elusiv commitment pipeline
(`src/elusiv/src/processor/commitment.rs`) and of the collaborating
components it calls (commitment queue, hashing accounts, storage account,
duplicate buffer, fund transfer primitive).  Components whose source is not
part of this repository snapshot are modelled from the specification; their
doc comments start with `Modelled from the spec:`.

Machine integers are modelled as `Nat`; 32-byte field-element encodings are
collapsed to their numeric value.  Fallible Rust functions returning
`ProgramResult` with `&mut` state are embedded as
`State → Option ElusivError × State`, threading the in-memory state through
error returns exactly as Rust `&mut` mutation does.  The runtime's
atomic-step (rollback on instruction failure) semantics from spec §5 is a
separate, explicitly named wrapper `persisted`.
-/

namespace Elusiv

/-- Error taxonomy of the processor (`ElusivError` in the source; variants
restricted to the ones reachable from the embedded operations). -/
inductive ElusivError where
  | InvalidAmount
  | InvalidInstructionData
  | NonScalarValue
  | InvalidFeeVersion
  | InvalidBatchingRate
  | InvalidAccount
  | InsufficientFunds
  | TokenUnderflow
  | DuplicateError
  | AccountAlreadyAllocated
  | ComputationIsNotYetStarted
  | ComputationIsNotYetFinished
  | ComputationIsAlreadyFinished
  | QueueIsFull
  | QueueIsEmpty
  | NoRoomForCommitment
deriving DecidableEq, Repr

/-- The four named parties of `store_base_commitment` /
`finalize_base_commitment_hash`: keys are collapsed to this enum. -/
inductive AccountId where
  | sender
  | feePayer
  | pool
  | feeCollector
deriving DecidableEq, Repr

/-- One executed fund movement (`transfer_token` /
`transfer_with_system_program` / `transfer_token_from_pda` call).
`token_id = 0` is the native unit (lamports). -/
structure Transfer where
  src : AccountId
  dst : AccountId
  token_id : Nat
  amount : Nat
deriving DecidableEq, Repr

/-- Modelled from the spec: the multi-round base-commitment hash
(`BaseCommitmentHashComputation`, §4.2 / §2: a fixed number `IX_COUNT` of
rounds of an intermediate-hash-accumulator transition).  The concrete round
function is a parameter; `IX_COUNT` is its fixed round count. -/
structure HashParams where
  IX_COUNT : Nat
  seedState : Nat → Nat → Nat
  roundFn : Nat → Nat
  resultOf : Nat → Nat

/-- Modelled from the spec: the full multi-round hash
`poseidon(a, b)` = result of `IX_COUNT` rounds from the seeded state
(doc of `store_base_commitment`:
`commitment = poseidon(base_commitment, amount + token_id * 2^64)`). -/
def poseidonHash (hp : HashParams) (a b : Nat) : Nat :=
  hp.resultOf (Nat.iterate hp.roundFn hp.IX_COUNT (hp.seedState a b))

/-- `ZERO_BASE_COMMITMENT = poseidon(0, 0)` (reserved, cannot be
user-supplied). -/
def zeroBaseCommitment (hp : HashParams) : Nat :=
  poseidonHash hp 0 0

/-- `BaseCommitmentHashRequest` from the source. -/
structure BaseCommitmentHashRequest where
  base_commitment : Nat
  commitment_index : Nat
  amount : Nat
  token_id : Nat
  commitment : Nat
  fee_version : Nat
  min_batching_rate : Nat
deriving DecidableEq, Repr

/-- `CommitmentHashRequest` (a Commitment Queue entry) from the source. -/
structure CommitmentHashRequest where
  commitment : Nat
  fee_version : Nat
  min_batching_rate : Nat
deriving DecidableEq, Repr, Inhabited

/-- Modelled from the spec: `BaseCommitmentHashingAccount` (§3), the
per-request resumable hashing record (its accessors `get_is_active`,
`get_fee_payer`, `get_fee_version`, `get_min_batching_rate`,
`get_instruction`, `get_state` are not under `src/`). -/
structure BaseCommitmentHashingAccount where
  is_active : Bool
  fee_payer : AccountId
  fee_version : Nat
  min_batching_rate : Nat
  instruction : Nat
  hash_state : Nat
deriving DecidableEq, Repr

/-- Modelled from the spec: `CommitmentHashingAccount` (§3), the global
batch-hashing singleton (its accessors and `setup`/`reset`/`update_mt` are
not under `src/`). -/
structure CommitmentHashingAccount where
  is_active : Bool
  is_setup : Bool
  batching_rate : Nat
  fee_version : Nat
  ordering : Nat
  instruction : Nat
  finalization_ix : Nat
  siblings : List Nat
  hash_tree : List Nat
deriving DecidableEq, Repr

/-- Modelled from the spec: `StorageAccount` (§4.5), the Merkle
accumulator: next free leaf pointer plus node values addressed by
`(level, index)` where level 0 is the leaf level. -/
structure StorageAccount where
  next_commitment_ptr : Nat
  nodes : Nat → Nat → Nat

/-- Static parameters of one deployment: hash parameters, tree height,
queue capacity, governor values, the oracle's fee quotes for the call at
hand, token bounds and account-verification outcomes (the oracle, transfer
and allocation collaborators are external per spec §1). -/
structure Env where
  hp : HashParams
  scalarModulus : Nat
  queueCapacity : Nat
  mtHeight : Nat
  ixCountForBatch : Nat → Nat
  batchRound : CommitmentHashingAccount → List Nat
  governorFeeVersion : Nat
  governorBatchingRate : Nat
  tokenMin : Nat
  tokenMax : Nat
  priceOk : Bool
  poolAccountOk : Bool
  feeCollectorAccountOk : Bool
  subvention : Nat
  computationFeeToken : Nat
  computationFeeLamports : Nat
  networkFee : Nat
  baseCommitmentHashFee : Nat
  hashTxCompensation : Nat

/-- `MT_COMMITMENT_COUNT = 2^MT_HEIGHT` (tree capacity in leaves). -/
def MT_COMMITMENT_COUNT (env : Env) : Nat :=
  2 ^ env.mtHeight

/-- `commitments_per_batch(batching_rate) = 2^batching_rate` (batch leaf
count). -/
def commitments_per_batch (batching_rate : Nat) : Nat :=
  2 ^ batching_rate

/-- The persisted on-chain state touched by the base-commitment pipeline:
token balances per `(account, token)`, the executed transfer log, the
duplicate-buffer contents, the per-index hashing slots and the Commitment
Queue. -/
structure ChainState where
  bal : AccountId → Nat → Nat
  transfers : List Transfer
  buffer : List Nat
  slots : Nat → Option BaseCommitmentHashingAccount
  queue : List CommitmentHashRequest

/-- Point update of a balance map. -/
def updBal (bal : AccountId → Nat → Nat) (a : AccountId) (tid v : Nat) :
    AccountId → Nat → Nat :=
  fun a' t' => if a' = a ∧ t' = tid then v else bal a' t'

/-- Modelled from the spec: the fund-transfer primitive's effect (§6) once
its balance check has passed: debit `src`, credit `dst`, log the
movement. -/
def applyTransfer (s : ChainState) (src dst : AccountId) (tid amt : Nat) :
    ChainState :=
  let b1 := updBal s.bal src tid (s.bal src tid - amt)
  let b2 := updBal b1 dst tid (b1 dst tid + amt)
  { s with bal := b2, transfers := s.transfers ++ [⟨src, dst, tid, amt⟩] }

/-- Point update of the hashing-slot map. -/
def updSlot (slots : Nat → Option BaseCommitmentHashingAccount) (idx : Nat)
    (v : Option BaseCommitmentHashingAccount) :
    Nat → Option BaseCommitmentHashingAccount :=
  fun j => if j = idx then v else slots j

/-- Modelled from the spec: §5 atomic step execution — an instruction that
returns an error persists nothing (the runtime reverts all account
mutations of the failed step); on success the mutated state persists. -/
def persisted {S : Type} (f : S → Option ElusivError × S) (s : S) : S :=
  match (f s).1 with
  | none => (f s).2
  | some _ => s

/-- Modelled from the spec: `CommitmentQueue::enqueue` (§4.3) — append at
the tail if capacity remains, else fail. -/
def enqueue (env : Env) (q : List CommitmentHashRequest)
    (e : CommitmentHashRequest) :
    Option ElusivError × List CommitmentHashRequest :=
  if q.length < env.queueCapacity then (none, q ++ [e])
  else (some .QueueIsFull, q)

/-- Sequencing of instruction steps: stop at the first error, keeping
the state mutated so far (Rust `&mut` semantics). -/
def andThenStep {S : Type} (r : Option ElusivError × S)
    (f : S → Option ElusivError × S) : Option ElusivError × S :=
  match r.1 with
  | some e => (some e, r.2)
  | none => f r.2

/-- The pure validations of `store_base_commitment` (source lines
114-157), in source order: token amount bounds (`Token::new_checked`),
the price accounts (`TokenPrice::new`), scalar-field membership of both
submitted values, rejection of the reserved zero base commitment, fee
version and batching rate against the governor, the two
program-token-account verifications, and the token subtraction underflow
of the first transfer's amount.  None of them touches state. -/
def storeChecks (env : Env) (req : BaseCommitmentHashRequest) :
    Option ElusivError :=
  if ¬(env.tokenMin ≤ req.amount ∧ req.amount ≤ env.tokenMax) then
    some .InvalidAmount
  else if ¬(env.priceOk = true) then some .InvalidAccount
  else if ¬(req.base_commitment < env.scalarModulus) then
    some .NonScalarValue
  else if ¬(req.commitment < env.scalarModulus) then some .NonScalarValue
  else if req.base_commitment = zeroBaseCommitment env.hp then
    some .InvalidInstructionData
  else if ¬(req.fee_version = env.governorFeeVersion) then
    some .InvalidFeeVersion
  else if ¬(req.min_batching_rate = env.governorBatchingRate) then
    some .InvalidBatchingRate
  else if ¬(env.poolAccountOk = true) then some .InvalidAccount
  else if ¬(env.feeCollectorAccountOk = true) then some .InvalidAccount
  else if ¬(env.subvention ≤ env.computationFeeToken) then
    some .TokenUnderflow
  else none

/-- Modelled from the spec: the fund-transfer primitive (§6): fails with
`InsufficientFunds` leaving the state untouched, otherwise debits,
credits and logs. -/
def tryTransfer (s : ChainState) (src dst : AccountId) (tid amt : Nat) :
    Option ElusivError × ChainState :=
  if amt ≤ s.bal src tid then (none, applyTransfer s src dst tid amt)
  else (some .InsufficientFunds, s)

/-- Modelled from the spec: `open_pda_account_with_offset` (§6
allocation interface): fails if the slot is already populated, else
creates the zeroed record. -/
def tryAllocate (idx : Nat) (s : ChainState) :
    Option ElusivError × ChainState :=
  if s.slots idx = none then
    (none, { s with
      slots := updSlot s.slots idx (some ⟨false, .feePayer, 0, 0, 0, 0⟩) })
  else (some .AccountAlreadyAllocated, s)

/-- Modelled from the spec: `BaseCommitmentBufferAccount::try_insert`
(§4.1): inserts the value if absent, else fails with a duplicate
error. -/
def tryBufferInsert (v : Nat) (s : ChainState) :
    Option ElusivError × ChainState :=
  if v ∈ s.buffer then (some .DuplicateError, s)
  else (none, { s with buffer := s.buffer ++ [v] })

/-- The hashing record written by `BaseCommitmentHashingAccount::setup`:
active, cursor 0, the request's fee data, and the hash state seeded with
`(base_commitment, amount + token_id * 2^64)` (source doc comment of
`store_base_commitment`). -/
def seededAccount (env : Env) (req : BaseCommitmentHashRequest) :
    BaseCommitmentHashingAccount :=
  { is_active := true
    fee_payer := .feePayer
    fee_version := req.fee_version
    min_batching_rate := req.min_batching_rate
    instruction := 0
    hash_state := env.hp.seedState req.base_commitment
      (req.amount + req.token_id * 2 ^ 64) }

/-- The effectful tail of `store_base_commitment` (source lines
159-213), in source order: the five fund flows, hashing-slot allocation
(between the fourth and fifth transfer, as in the source), the
duplicate-buffer insertion, and the hashing-account setup.  Each step
keeps the mutations of the preceding ones when it fails. -/
def storeSteps (env : Env) (req : BaseCommitmentHashRequest) (idx : Nat)
    (s : ChainState) : Option ElusivError × ChainState :=
  andThenStep (tryTransfer s .sender .feePayer req.token_id
      (env.computationFeeToken - env.subvention)) fun s1 =>
  andThenStep (tryTransfer s1 .feePayer .pool 0
      env.computationFeeLamports) fun s2 =>
  andThenStep (tryTransfer s2 .sender .feeCollector req.token_id
      env.networkFee) fun s3 =>
  andThenStep (tryTransfer s3 .sender .pool req.token_id req.amount)
      fun s4 =>
  andThenStep (tryAllocate idx s4) fun s5 =>
  andThenStep (tryTransfer s5 .feeCollector .feePayer req.token_id
      env.subvention) fun s6 =>
  andThenStep (tryBufferInsert req.base_commitment s6) fun s7 =>
  (none, { s7 with
    slots := updSlot s7.slots idx (some (seededAccount env req)) })

/-- `store_base_commitment` from the source (lines 91-213): the pure
validations, then the effectful steps. -/
def store_base_commitment (env : Env) (req : BaseCommitmentHashRequest)
    (idx : Nat) (s : ChainState) : Option ElusivError × ChainState :=
  match storeChecks env req with
  | some e => (some e, s)
  | none => storeSteps env req idx s

/-- The explicit post-state of a successful `store_base_commitment`. -/
def storePost (env : Env) (req : BaseCommitmentHashRequest) (idx : Nat)
    (s : ChainState) : ChainState :=
  let tid := req.token_id
  let s1 := applyTransfer s .sender .feePayer tid
    (env.computationFeeToken - env.subvention)
  let s2 := applyTransfer s1 .feePayer .pool 0 env.computationFeeLamports
  let s3 := applyTransfer s2 .sender .feeCollector tid env.networkFee
  let s4 := applyTransfer s3 .sender .pool tid req.amount
  let s5 := { s4 with
    slots := updSlot s4.slots idx (some ⟨false, .feePayer, 0, 0, 0, 0⟩) }
  let s6 := applyTransfer s5 .feeCollector .feePayer tid env.subvention
  let s7 := { s6 with buffer := s6.buffer ++ [req.base_commitment] }
  { s7 with slots := updSlot s7.slots idx (some (seededAccount env req)) }

/-- Validity of a request and sufficiency of the parties' funds: the
conditions under which `store_base_commitment` succeeds. -/
def storeOk (env : Env) (req : BaseCommitmentHashRequest) (idx : Nat)
    (s : ChainState) : Prop :=
  env.tokenMin ≤ req.amount ∧ req.amount ≤ env.tokenMax ∧
  env.priceOk = true ∧
  req.base_commitment < env.scalarModulus ∧
  req.commitment < env.scalarModulus ∧
  req.base_commitment ≠ zeroBaseCommitment env.hp ∧
  req.fee_version = env.governorFeeVersion ∧
  req.min_batching_rate = env.governorBatchingRate ∧
  env.poolAccountOk = true ∧
  env.feeCollectorAccountOk = true ∧
  env.subvention ≤ env.computationFeeToken ∧
  env.computationFeeToken - env.subvention + env.networkFee + req.amount ≤
    s.bal .sender req.token_id ∧
  env.computationFeeLamports ≤ s.bal .feePayer 0 ∧
  env.subvention ≤ s.bal .feeCollector req.token_id ∧
  s.slots idx = none ∧
  req.base_commitment ∉ s.buffer

instance storeOkDecidable (env : Env) (req : BaseCommitmentHashRequest)
    (idx : Nat) (s : ChainState) : Decidable (storeOk env req idx s) := by
  unfold storeOk
  infer_instance

/-- Modelled from the spec: one round of the resumable base-commitment
hash (`compute_base_commitment_hash_partial`, §4.2 `advance`): performs
exactly one round and advances the cursor by one; errors once the cursor
has reached `IX_COUNT`. -/
def base_commitment_hash_step (hp : HashParams)
    (acc : BaseCommitmentHashingAccount) :
    Option ElusivError × BaseCommitmentHashingAccount :=
  if acc.instruction < hp.IX_COUNT then
    (none, { acc with
      instruction := acc.instruction + 1
      hash_state := hp.roundFn acc.hash_state })
  else (some .ComputationIsAlreadyFinished, acc)

/-- `compute_base_commitment_hash` from the source (lines 216-226). -/
def compute_base_commitment_hash (hp : HashParams)
    (acc : BaseCommitmentHashingAccount) :
    Option ElusivError × BaseCommitmentHashingAccount :=
  if acc.is_active = true then base_commitment_hash_step hp acc
  else (some .ComputationIsNotYetStarted, acc)

/-- `compute_base_commitment_hash` acting on the chain state's hashing
slot `idx` (the account the instruction's caller passes in). -/
def compute_base_commitment_hash_chain (env : Env) (idx : Nat)
    (s : ChainState) : Option ElusivError × ChainState :=
  match s.slots idx with
  | none => (some .InvalidAccount, s)
  | some acc =>
    let r := compute_base_commitment_hash env.hp acc
    (r.1, { s with slots := updSlot s.slots idx (some r.2) })

/-- `finalize_base_commitment_hash` from the source (lines 229-281):
guards in source order, computation-fee compensation from the pool, queue
append, deactivation and account closing. -/
def finalize_base_commitment_hash (env : Env) (caller : AccountId)
    (idx fee_version : Nat) (s : ChainState) :
    Option ElusivError × ChainState :=
  match s.slots idx with
  | none => (some .InvalidAccount, s)
  | some h =>
    if ¬(h.fee_version = fee_version) then (some .InvalidFeeVersion, s)
    else if ¬(h.is_active = true) then (some .ComputationIsNotYetStarted, s)
    else if ¬(h.fee_payer = caller) then (some .InvalidAccount, s)
    else if ¬(h.instruction = env.hp.IX_COUNT) then
      (some .ComputationIsNotYetFinished, s)
    else if ¬(env.baseCommitmentHashFee ≤ s.bal .pool 0) then
      (some .InsufficientFunds, s)
    else
      let s1 := applyTransfer s .pool caller 0 env.baseCommitmentHashFee
      let entry : CommitmentHashRequest :=
        { commitment := env.hp.resultOf h.hash_state
          fee_version := fee_version
          min_batching_rate := h.min_batching_rate }
      let r := enqueue env s1.queue entry
      match r.1 with
      | some e => (some e, { s1 with queue := r.2 })
      | none => (none, { s1 with
          queue := r.2
          slots := updSlot s1.slots idx none })

/-- The hashing account after `n` further rounds: cursor advanced by `n`
and the round function applied `n` times. -/
def advancedAccount (env : Env) (h : BaseCommitmentHashingAccount)
    (n : Nat) : BaseCommitmentHashingAccount :=
  { h with
    instruction := h.instruction + n
    hash_state := Nat.iterate env.hp.roundFn n h.hash_state }

/-- `n` consecutive `compute_base_commitment_hash` calls on slot `idx`. -/
def advanceN (env : Env) (idx : Nat) :
    Nat → ChainState → Option ElusivError × ChainState
  | 0, s => (none, s)
  | n + 1, s =>
    andThenStep (compute_base_commitment_hash_chain env idx s)
      (advanceN env idx n)

/-- The full base-commitment pipeline: `store`, then `IX_COUNT` calls to
`compute`, then one `finalize` (spec §8, first property). -/
def basePipeline (env : Env) (caller : AccountId) (idx : Nat)
    (req : BaseCommitmentHashRequest) (s : ChainState) :
    Option ElusivError × ChainState :=
  andThenStep (store_base_commitment env req idx s) (fun s0 =>
    andThenStep (advanceN env idx env.hp.IX_COUNT s0) (fun s1 =>
      finalize_base_commitment_hash env caller idx req.fee_version s1))

/-- Modelled from the spec: the Merkle opening of a leaf position
(`StorageAccount::get_mt_opening`, §4.5): the sibling node at every level
from the leaves to below the root; fails when the position is beyond the
tree capacity. -/
def get_mt_opening (env : Env) (st : StorageAccount) (leaf : Nat) :
    Option (List Nat) :=
  if leaf ≤ MT_COMMITMENT_COUNT env then
    some ((List.range env.mtHeight).map (fun l =>
      st.nodes l (2 * (leaf / 2 ^ (l + 1)) + (1 - leaf / 2 ^ l % 2))))
  else none

/-- Modelled from the spec: `CommitmentHashingAccount::setup` (§4.4
`setup`): records `ordering` and the sibling path, raises the setup flag
and rewinds both cursors. -/
def CommitmentHashingAccount.setupWith (h : CommitmentHashingAccount)
    (ordering : Nat) (siblings : List Nat) : CommitmentHashingAccount :=
  { h with
    is_setup := true
    ordering := ordering
    siblings := siblings
    instruction := 0
    finalization_ix := 0 }

/-- Modelled from the spec: `CommitmentHashingAccount::reset` (§4.4
`reset`): copies the batch's commitments into the working leaf array,
records the batching rate and the batch's common fee version, and
activates the computation. -/
def CommitmentHashingAccount.resetWith (h : CommitmentHashingAccount)
    (batching_rate fee_version : Nat) (commitments : List Nat) :
    CommitmentHashingAccount :=
  { h with
    is_active := true
    batching_rate := batching_rate
    fee_version := fee_version
    hash_tree := commitments
    instruction := 0
    finalization_ix := 0 }

/-- Modelled from the spec: the scan of `CommitmentQueue::next_batch`
(§4.3): walk from the head, keeping the running maximum of the entries'
`min_batching_rate`, until the collected run length reaches
`2^rate`; every collected entry must carry the head's fee version. -/
def nextBatchGo (fee_version : Nat) :
    List CommitmentHashRequest → Nat → List CommitmentHashRequest →
    Option ElusivError × Option (List CommitmentHashRequest × Nat)
  | rest, rate, acc =>
    if commitments_per_batch rate ≤ acc.length then
      (none, some (acc.reverse, rate))
    else
      match rest with
      | [] => (some .QueueIsEmpty, none)
      | e :: rest' =>
        if ¬(e.fee_version = fee_version) then (some .InvalidFeeVersion, none)
        else nextBatchGo fee_version rest' (max rate e.min_batching_rate)
          (e :: acc)

/-- Modelled from the spec: `CommitmentQueue::next_batch` (§4.3). -/
def next_batch (q : List CommitmentHashRequest) :
    Option ElusivError × Option (List CommitmentHashRequest × Nat) :=
  match q with
  | [] => (some .QueueIsEmpty, none)
  | e :: _ => nextBatchGo e.fee_version q 0 []

/-- `init_commitment_hash_setup_inner` from the source (lines 303-316). -/
def init_commitment_hash_setup_inner (env : Env)
    (h : CommitmentHashingAccount) (st : StorageAccount) :
    Option ElusivError × CommitmentHashingAccount :=
  if h.is_active = true then (some .ComputationIsNotYetFinished, h)
  else
    let ordering := st.next_commitment_ptr
    match get_mt_opening env st ordering with
    | none => (some .InvalidAccount, h)
    | some siblings => (none, h.setupWith ordering siblings)

/-- `init_commitment_hash_setup` from the source (lines 284-301): wraps
the strict inner operation; with `insertion_can_fail` an inner error is
logged and converted into success, otherwise it is propagated. -/
def init_commitment_hash_setup (env : Env) (insertion_can_fail : Bool)
    (h : CommitmentHashingAccount) (st : StorageAccount) :
    Option ElusivError × CommitmentHashingAccount :=
  let r := init_commitment_hash_setup_inner env h st
  match r.1 with
  | none => (none, r.2)
  | some e => if insertion_can_fail then (none, r.2) else (some e, r.2)

/-- `init_commitment_hash_inner` from the source (lines 338-370): guards,
batch extraction, queue removal, capacity check (after the removal), then
`reset`.  State is the pair (queue, hashing account). -/
def init_commitment_hash_inner (env : Env)
    (p : List CommitmentHashRequest × CommitmentHashingAccount) :
    Option ElusivError × (List CommitmentHashRequest × CommitmentHashingAccount) :=
  let (queue, h) := p
  if h.is_active = true then (some .ComputationIsNotYetFinished, p)
  else if ¬(h.is_setup = true) then (some .ComputationIsNotYetFinished, p)
  else
    match next_batch queue with
    | (some e, _) => (some e, p)
    | (none, none) => (some .QueueIsEmpty, p)
    | (none, some (batch, batching_rate)) =>
      let queue' := queue.drop batch.length
      let fee_version := (batch.headD default).fee_version
      if ¬(h.ordering + batch.length ≤ MT_COMMITMENT_COUNT env) then
        (some .NoRoomForCommitment, (queue', h))
      else
        (none, (queue', h.resetWith batching_rate fee_version
          (batch.map (·.commitment))))

/-- `init_commitment_hash` from the source (lines 319-336): wraps the
strict inner operation; with `insertion_can_fail` an inner error is
logged and converted into success, otherwise it is propagated. -/
def init_commitment_hash (env : Env) (insertion_can_fail : Bool)
    (p : List CommitmentHashRequest × CommitmentHashingAccount) :
    Option ElusivError × (List CommitmentHashRequest × CommitmentHashingAccount) :=
  let r := init_commitment_hash_inner env p
  match r.1 with
  | none => (none, r.2)
  | some e => if insertion_can_fail then (none, r.2) else (some e, r.2)

/-- Modelled from the spec: one step of the bottom-up subtree hash
(`compute_commitment_hash_partial`, §4.4 `advance`): advances the cursor
and transforms the working hash tree; errors once the instruction
sequence for the batching rate is exhausted. -/
def commitment_hash_step (env : Env) (h : CommitmentHashingAccount) :
    Option ElusivError × CommitmentHashingAccount :=
  if h.instruction < env.ixCountForBatch h.batching_rate then
    (none, { h with
      instruction := h.instruction + 1
      hash_tree := env.batchRound h })
  else (some .ComputationIsAlreadyFinished, h)

/-- `compute_commitment_hash` from the source (lines 372-397): guards,
one hash step, then the per-step transaction compensation from the pool
to the calling fee payer (lamports).  State is the pair
(balances, hashing account). -/
def compute_commitment_hash (env : Env) (caller : AccountId)
    (fee_version : Nat)
    (p : (AccountId → Nat → Nat) × CommitmentHashingAccount) :
    Option ElusivError × ((AccountId → Nat → Nat) × CommitmentHashingAccount) :=
  let (bal, h) := p
  if ¬(h.is_active = true) then (some .ComputationIsNotYetStarted, p)
  else if ¬(h.fee_version = fee_version) then (some .InvalidFeeVersion, p)
  else
    let r := commitment_hash_step env h
    match r.1 with
    | some e => (some e, (bal, r.2))
    | none =>
      if ¬(env.hashTxCompensation ≤ bal .pool 0) then
        (some .InsufficientFunds, (bal, r.2))
      else
        let b1 := updBal bal .pool 0 (bal .pool 0 - env.hashTxCompensation)
        let b2 := updBal b1 caller 0 (b1 caller 0 + env.hashTxCompensation)
        (none, (b2, r.2))

/-- Modelled from the spec: `CommitmentHashingAccount::update_mt` (§4.4
`finalize`): call number `fin_ix` splices one level of the freshly
computed subtree into the accumulator at addresses derived from
`ordering`, and the call where `fin_ix` reaches the batching rate
advances `next_commitment_ptr` by the batch leaf count. -/
def update_mt (h : CommitmentHashingAccount) (st : StorageAccount)
    (fin_ix : Nat) : StorageAccount :=
  let b := h.batching_rate
  let base := h.ordering / 2 ^ fin_ix
  let width := 2 ^ (b - fin_ix)
  let st' : StorageAccount :=
    { st with nodes := fun lvl i =>
        if lvl = fin_ix ∧ base ≤ i ∧ i < base + width then
          h.hash_tree.getD (2 ^ (b + 1) - 2 ^ (b + 1 - fin_ix) + (i - base)) 0
        else st.nodes lvl i }
  if fin_ix = b then
    { st' with next_commitment_ptr :=
        st'.next_commitment_ptr + commitments_per_batch b }
  else st'

/-- `finalize_commitment_hash` from the source (lines 400-437): guards in
source order (active, finalization cursor in range, hash computation
complete, room in the tree), then one `update_mt` splice, cursor advance
and — on the call where the cursor reaches the batching rate — clearing
of the active and setup flags.  State is the pair
(hashing account, storage account). -/
def finalize_commitment_hash (env : Env)
    (p : CommitmentHashingAccount × StorageAccount) :
    Option ElusivError × (CommitmentHashingAccount × StorageAccount) :=
  let (h, st) := p
  if ¬(h.is_active = true) then (some .ComputationIsNotYetStarted, p)
  else if ¬(h.finalization_ix ≤ h.batching_rate) then
    (some .ComputationIsAlreadyFinished, p)
  else if ¬(env.ixCountForBatch h.batching_rate ≤ h.instruction) then
    (some .ComputationIsAlreadyFinished, p)
  else if ¬(st.next_commitment_ptr + commitments_per_batch h.batching_rate ≤
      MT_COMMITMENT_COUNT env) then
    (some .NoRoomForCommitment, p)
  else
    let st' := update_mt h st h.finalization_ix
    let h' := { h with finalization_ix := h.finalization_ix + 1 }
    let h'' := if h.finalization_ix = h.batching_rate then
        { h' with is_active := false, is_setup := false }
      else h'
    (none, (h'', st'))

/-- `n` consecutive `finalize_commitment_hash` calls. -/
def finalizeN (env : Env) :
    Nat → CommitmentHashingAccount × StorageAccount →
    Option ElusivError × (CommitmentHashingAccount × StorageAccount)
  | 0, p => (none, p)
  | n + 1, p => andThenStep (finalize_commitment_hash env p) (finalizeN env n)

/-- A small concrete deployment used to evaluate the theorems on explicit
inputs: two hash rounds, an 8-slot queue, a height-3 tree. -/
def wEnv : Env :=
  { hp := { IX_COUNT := 2, seedState := fun a b => a + 2 * b,
            roundFn := Nat.succ, resultOf := id }
    scalarModulus := 1000
    queueCapacity := 8
    mtHeight := 3
    ixCountForBatch := fun b => b + 1
    batchRound := fun h => h.hash_tree
    governorFeeVersion := 1
    governorBatchingRate := 4
    tokenMin := 1
    tokenMax := 500
    priceOk := true
    poolAccountOk := true
    feeCollectorAccountOk := true
    subvention := 2
    computationFeeToken := 5
    computationFeeLamports := 7
    networkFee := 3
    baseCommitmentHashFee := 4
    hashTxCompensation := 1 }

/-- A concrete chain state: every party holds 100 of every token, all
slots free, buffer and queue empty. -/
def wState : ChainState :=
  { bal := fun _ _ => 100
    transfers := []
    buffer := []
    slots := fun _ => none
    queue := [] }

/-- A concrete valid request for `wEnv`. -/
def wReq : BaseCommitmentHashRequest :=
  { base_commitment := 5
    commitment_index := 0
    amount := 10
    token_id := 9
    commitment := 6
    fee_version := 1
    min_batching_rate := 4 }

/-- `wReq` with a stale fee version (rejected by `store_base_commitment`
before any fund movement). -/
def wReqBadFee : BaseCommitmentHashRequest :=
  { wReq with fee_version := 0 }

/-- An inactive base-commitment hashing account. -/
def wAccInactive : BaseCommitmentHashingAccount :=
  { is_active := false, fee_payer := .feePayer, fee_version := 0
    min_batching_rate := 0, instruction := 0, hash_state := 0 }

/-- An active hashing slot whose cursor is strictly below `IX_COUNT`. -/
def wAccMid : BaseCommitmentHashingAccount :=
  { is_active := true, fee_payer := .feePayer, fee_version := 1
    min_batching_rate := 4, instruction := 1, hash_state := 3 }

/-- `wState` with `wAccMid` sitting in slot 0. -/
def wStateMid : ChainState :=
  { wState with slots := fun j => if j = 0 then some wAccMid else none }

/-- An inactive batch hashing account. -/
def wCHAInactive : CommitmentHashingAccount :=
  { is_active := false, is_setup := false, batching_rate := 0
    fee_version := 0, ordering := 0, instruction := 0, finalization_ix := 0
    siblings := [], hash_tree := [] }

/-- An active batch (rate 4, computation complete) for the capacity
re-check: 16 leaves do not fit in `wEnv`'s 8-leaf tree. -/
def wHNoRoom : CommitmentHashingAccount :=
  { is_active := true, is_setup := true, batching_rate := 4
    fee_version := 0, ordering := 0, instruction := 5, finalization_ix := 0
    siblings := [], hash_tree := [] }

/-- An active rate-1 batch with its bottom-up hash complete. -/
def wHBatch : CommitmentHashingAccount :=
  { is_active := true, is_setup := true, batching_rate := 1
    fee_version := 0, ordering := 0, instruction := 2, finalization_ix := 0
    siblings := [], hash_tree := [5, 6, 7] }

/-- An empty height-3 storage account. -/
def wSt : StorageAccount :=
  { next_commitment_ptr := 0, nodes := fun _ _ => 0 }

/-- An idle-but-setup batch slot whose recorded `ordering` already fills
the tree (used for the post-removal capacity check). -/
def wHFullTree : CommitmentHashingAccount :=
  { is_active := false, is_setup := true, batching_rate := 0
    fee_version := 0, ordering := 8, instruction := 0, finalization_ix := 0
    siblings := [], hash_tree := [] }

/-- A queue holding one immediately batchable entry. -/
def wQueueOne : List CommitmentHashRequest :=
  [{ commitment := 11, fee_version := 0, min_batching_rate := 0 }]

/-! ## Helper lemmas -/

theorem updSlot_self (sl : Nat → Option BaseCommitmentHashingAccount)
    (idx : Nat) (v : Option BaseCommitmentHashingAccount) :
    updSlot sl idx v idx = v := by
  simp [updSlot]

theorem updSlot_updSlot (sl : Nat → Option BaseCommitmentHashingAccount)
    (idx : Nat) (v w : Option BaseCommitmentHashingAccount) :
    updSlot (updSlot sl idx v) idx w = updSlot sl idx w := by
  funext j
  by_cases hj : j = idx <;> simp [updSlot, hj]

theorem andThenStep_assoc {S : Type} (r : Option ElusivError × S)
    (f g : S → Option ElusivError × S) :
    andThenStep (andThenStep r f) g =
      andThenStep r (fun s => andThenStep (f s) g) := by
  rcases r with ⟨e, s⟩
  cases e <;> simp [andThenStep]

/-! ## C6: the late capacity re-check of `finalize_commitment_hash` -/

/-- C6: for every active batch whose finalization is in range and whose
hash computation is complete, `finalize_commitment_hash` fails with
`NoRoomForCommitment` whenever `next_commitment_ptr` plus the batch leaf
count exceeds `MT_COMMITMENT_COUNT` at the time of the call (the pointer
and the batch state are arbitrary, so this holds even if capacity was
sufficient when the batch was reset), and leaves the state unchanged. -/
theorem finalize_commitment_hash_no_room (env : Env)
    (h : CommitmentHashingAccount) (st : StorageAccount)
    (hact : h.is_active = true)
    (hfin : h.finalization_ix ≤ h.batching_rate)
    (hix : env.ixCountForBatch h.batching_rate ≤ h.instruction)
    (hroom : MT_COMMITMENT_COUNT env <
      st.next_commitment_ptr + commitments_per_batch h.batching_rate) :
    finalize_commitment_hash env (h, st) =
      (some .NoRoomForCommitment, (h, st)) := by
  have hr : ¬(st.next_commitment_ptr + commitments_per_batch h.batching_rate ≤
      MT_COMMITMENT_COUNT env) := by omega
  simp [finalize_commitment_hash, hact, hfin, hix, hr]

/-- Evaluation of `finalize_commitment_hash_no_room` on a concrete
over-capacity batch. -/
theorem finalize_commitment_hash_no_room_witness :
    finalize_commitment_hash wEnv (wHNoRoom, wSt) =
      (some .NoRoomForCommitment, (wHNoRoom, wSt)) :=
  finalize_commitment_hash_no_room wEnv wHNoRoom wSt (by rfl) (by decide)
    (by decide) (by decide)

/-! ## C7: premature `finalize_base_commitment_hash` -/

/-- C7: for every active base-commitment hashing slot whose cursor is
strictly below `IX_COUNT` (with matching fee version and caller, so the
earlier guards pass), `finalize_base_commitment_hash` fails with
`ComputationIsNotYetFinished` and leaves the state — in particular the
queue — unchanged, so nothing is enqueued. -/
theorem finalize_base_commitment_hash_premature (env : Env)
    (caller : AccountId) (idx fv : Nat) (s : ChainState)
    (h : BaseCommitmentHashingAccount)
    (hs : s.slots idx = some h) (hfv : h.fee_version = fv)
    (hact : h.is_active = true) (hfp : h.fee_payer = caller)
    (hcur : h.instruction < env.hp.IX_COUNT) :
    finalize_base_commitment_hash env caller idx fv s =
      (some .ComputationIsNotYetFinished, s) := by
  have hne : ¬(h.instruction = env.hp.IX_COUNT) := by omega
  simp [finalize_base_commitment_hash, hs, hfv, hact, hfp, hne]

/-- Evaluation of `finalize_base_commitment_hash_premature` on a concrete
mid-computation slot (cursor 1 of 2). -/
theorem finalize_base_commitment_hash_premature_witness :
    finalize_base_commitment_hash wEnv .feePayer 0 1 wStateMid =
      (some .ComputationIsNotYetFinished, wStateMid) :=
  finalize_base_commitment_hash_premature wEnv .feePayer 0 1 wStateMid
    wAccMid (by rfl) (by rfl) (by rfl) (by rfl) (by decide)

/-! ## C5: a failed advance/finalize never mutates persisted state -/

/-- C5: whenever `compute_base_commitment_hash`, `compute_commitment_hash`
or `finalize_commitment_hash` returns an error, the persisted state (the
runtime reverts a failed step, `persisted`) is unchanged: cursors and
tree are exactly as before the call.  Additionally,
`compute_base_commitment_hash` and `finalize_commitment_hash` do not
mutate even their in-memory state on error, since all their guards
precede every mutation. -/
theorem failed_step_leaves_state_unchanged (env : Env) (hp : HashParams)
    (acc : BaseCommitmentHashingAccount)
    (pc : (AccountId → Nat → Nat) × CommitmentHashingAccount)
    (pf : CommitmentHashingAccount × StorageAccount)
    (caller : AccountId) (fv : Nat) (e₁ e₂ e₃ : ElusivError)
    (h₁ : (compute_base_commitment_hash hp acc).1 = some e₁)
    (h₂ : (compute_commitment_hash env caller fv pc).1 = some e₂)
    (h₃ : (finalize_commitment_hash env pf).1 = some e₃) :
    persisted (compute_base_commitment_hash hp) acc = acc ∧
    persisted (compute_commitment_hash env caller fv) pc = pc ∧
    persisted (finalize_commitment_hash env) pf = pf ∧
    (compute_base_commitment_hash hp acc).2 = acc ∧
    (finalize_commitment_hash env pf).2 = pf := by
  refine ⟨?_, ?_, ?_, ?_, ?_⟩
  · simp [persisted, h₁]
  · simp [persisted, h₂]
  · simp [persisted, h₃]
  · unfold compute_base_commitment_hash base_commitment_hash_step at h₁ ⊢
    split_ifs at h₁ ⊢ <;> simp_all
  · rcases pf with ⟨h, st⟩
    simp only [finalize_commitment_hash] at h₃ ⊢
    split_ifs at h₃ ⊢ <;> simp_all

/-- Evaluation of `failed_step_leaves_state_unchanged` on concrete
inactive accounts (each of the three calls errors with
`ComputationIsNotYetStarted`). -/
theorem failed_step_leaves_state_unchanged_witness :
    persisted (compute_base_commitment_hash wEnv.hp) wAccInactive =
        wAccInactive ∧
    persisted (compute_commitment_hash wEnv .feePayer 0)
        (wState.bal, wCHAInactive) = (wState.bal, wCHAInactive) ∧
    persisted (finalize_commitment_hash wEnv) (wCHAInactive, wSt) =
        (wCHAInactive, wSt) ∧
    (compute_base_commitment_hash wEnv.hp wAccInactive).2 = wAccInactive ∧
    (finalize_commitment_hash wEnv (wCHAInactive, wSt)).2 =
        (wCHAInactive, wSt) :=
  failed_step_leaves_state_unchanged wEnv wEnv.hp wAccInactive
    (wState.bal, wCHAInactive) (wCHAInactive, wSt) .feePayer 0
    .ComputationIsNotYetStarted .ComputationIsNotYetStarted
    .ComputationIsNotYetStarted (by rfl) (by rfl) (by rfl)

/-! ## C10 / C9: queue mutation before the capacity check, and the
best-effort wrappers -/

theorem nextBatchGo_ok (fv : Nat) :
    ∀ (rest : List CommitmentHashRequest) (rate : Nat)
      (acc batch : List CommitmentHashRequest) (r : Nat),
    nextBatchGo fv rest rate acc = (none, some (batch, r)) →
    commitments_per_batch r ≤ batch.length ∧
      batch.length ≤ acc.length + rest.length := by
  intro rest
  induction rest with
  | nil =>
    intro rate acc batch r hgo
    simp only [nextBatchGo] at hgo
    by_cases hstop : commitments_per_batch rate ≤ acc.length
    · rw [if_pos hstop] at hgo
      obtain ⟨h1, h2⟩ : acc.reverse = batch ∧ rate = r := by
        simpa using hgo
      subst h1; subst h2
      simp only [List.length_reverse, List.length_nil]
      omega
    · rw [if_neg hstop] at hgo
      exact absurd (congrArg Prod.fst hgo) (by simp)
  | cons e rest' ih =>
    intro rate acc batch r hgo
    simp only [nextBatchGo] at hgo
    by_cases hstop : commitments_per_batch rate ≤ acc.length
    · rw [if_pos hstop] at hgo
      obtain ⟨h1, h2⟩ : acc.reverse = batch ∧ rate = r := by
        simpa using hgo
      subst h1; subst h2
      simp only [List.length_reverse, List.length_cons]
      omega
    · rw [if_neg hstop] at hgo
      by_cases hfee : e.fee_version = fv
      · rw [if_neg (not_not_intro hfee)] at hgo
        have := ih (max rate e.min_batching_rate) (e :: acc) batch r hgo
        simp only [List.length_cons] at this ⊢
        omega
      · rw [if_pos hfee] at hgo
        exact absurd (congrArg Prod.fst hgo) (by simp)

theorem next_batch_ok (q batch : List CommitmentHashRequest) (r : Nat)
    (hnb : next_batch q = (none, some (batch, r))) :
    0 < batch.length ∧ batch.length ≤ q.length := by
  match q with
  | [] => simp [next_batch] at hnb
  | e :: q' =>
    have hgo := nextBatchGo_ok e.fee_version (e :: q') 0 [] batch r hnb
    have h1 : 0 < commitments_per_batch r := by
      unfold commitments_per_batch
      positivity
    simp only [List.length_nil, List.length_cons] at hgo ⊢
    omega

/-- C10: whenever the batch slot is idle and set up, `next_batch` yields
a batch, and the recorded `ordering` plus the batch length exceeds
`MT_COMMITMENT_COUNT`, strict-mode `init_commitment_hash` returns
`NoRoomForCommitment` with the batch's entries already removed from the
queue — the queue is mutated despite the error, because the removal
happens before the capacity check. -/
theorem init_commitment_hash_no_room_mutates_queue (env : Env)
    (queue batch : List CommitmentHashRequest)
    (h : CommitmentHashingAccount) (rate : Nat)
    (hact : h.is_active = false) (hsetup : h.is_setup = true)
    (hnb : next_batch queue = (none, some (batch, rate)))
    (hroom : MT_COMMITMENT_COUNT env < h.ordering + batch.length) :
    init_commitment_hash env false (queue, h) =
      (some .NoRoomForCommitment, (queue.drop batch.length, h)) ∧
    queue.drop batch.length ≠ queue := by
  have hr : ¬(h.ordering + batch.length ≤ MT_COMMITMENT_COUNT env) := by
    omega
  have hlen := next_batch_ok queue batch rate hnb
  constructor
  · simp [init_commitment_hash, init_commitment_hash_inner, hact, hsetup,
      hnb, hr]
  · intro heq
    have := congrArg List.length heq
    simp only [List.length_drop] at this
    omega

/-- Evaluation of `init_commitment_hash_no_room_mutates_queue` on a
concrete one-entry queue and a full tree. -/
theorem init_commitment_hash_no_room_mutates_queue_witness :
    init_commitment_hash wEnv false (wQueueOne, wHFullTree) =
      (some .NoRoomForCommitment, ([], wHFullTree)) ∧
    ([] : List CommitmentHashRequest) ≠ wQueueOne :=
  init_commitment_hash_no_room_mutates_queue wEnv wQueueOne wQueueOne
    wHFullTree 0 (by rfl) (by rfl) (by decide) (by decide)

/-- C9 counterexample: with `insertion_can_fail = true` and a batch that
no longer fits the tree, `init_commitment_hash` reports success but is
not a no-op — the batch has been removed from the queue and the removal
persists precisely because the reported success is not rolled back. -/
theorem init_commitment_hash_can_fail_not_noop :
    (init_commitment_hash wEnv true (wQueueOne, wHFullTree)).1 = none ∧
    (init_commitment_hash wEnv true (wQueueOne, wHFullTree)).2 ≠
      (wQueueOne, wHFullTree) := by
  constructor
  · decide
  · decide

/-- C9 as amended: with `insertion_can_fail = true`,
`init_commitment_hash_setup` and `init_commitment_hash` always return
success, converting any inner error into a logged success whose state is
the strict inner operation's (possibly partially mutated) state; with
`insertion_can_fail = false` the inner result — error and state — is
returned unchanged. -/
theorem init_can_fail_swallows_errors (env : Env)
    (q : List CommitmentHashRequest) (h : CommitmentHashingAccount)
    (st : StorageAccount) :
    (init_commitment_hash_setup env true h st).1 = none ∧
    (init_commitment_hash env true (q, h)).1 = none ∧
    init_commitment_hash_setup env false h st =
      init_commitment_hash_setup_inner env h st ∧
    init_commitment_hash env false (q, h) =
      init_commitment_hash_inner env (q, h) ∧
    (init_commitment_hash_setup env true h st).2 =
      (init_commitment_hash_setup_inner env h st).2 ∧
    (init_commitment_hash env true (q, h)).2 =
      (init_commitment_hash_inner env (q, h)).2 := by
  refine ⟨?_, ?_, ?_, ?_, ?_, ?_⟩
  · cases hr : (init_commitment_hash_setup_inner env h st).1 <;>
      simp [init_commitment_hash_setup, hr]
  · cases hr : (init_commitment_hash_inner env (q, h)).1 <;>
      simp [init_commitment_hash, hr]
  · refine Prod.ext ?_ ?_ <;>
      cases hr : (init_commitment_hash_setup_inner env h st).1 <;>
      simp [init_commitment_hash_setup, hr]
  · refine Prod.ext ?_ ?_ <;>
      cases hr : (init_commitment_hash_inner env (q, h)).1 <;>
      simp [init_commitment_hash, hr]
  · cases hr : (init_commitment_hash_setup_inner env h st).1 <;>
      simp [init_commitment_hash_setup, hr]
  · cases hr : (init_commitment_hash_inner env (q, h)).1 <;>
      simp [init_commitment_hash, hr]

/-! ## C2: finalization of a complete batch -/

theorem finalizeN_ok (env : Env) :
    ∀ (k : Nat) (h : CommitmentHashingAccount) (st : StorageAccount),
    h.is_active = true →
    env.ixCountForBatch h.batching_rate ≤ h.instruction →
    h.finalization_ix + k ≤ h.batching_rate →
    st.next_commitment_ptr + commitments_per_batch h.batching_rate ≤
      MT_COMMITMENT_COUNT env →
    ∃ st' : StorageAccount,
      finalizeN env k (h, st) =
        (none, ({ h with finalization_ix := h.finalization_ix + k }, st')) ∧
      st'.next_commitment_ptr = st.next_commitment_ptr := by
  intro k
  induction k with
  | zero =>
    intro h st hact hix hk hroom
    exact ⟨st, rfl, rfl⟩
  | succ k ih =>
    intro h st hact hix hk hroom
    have hfin : h.finalization_ix ≤ h.batching_rate := by omega
    have hne : ¬(h.finalization_ix = h.batching_rate) := by omega
    have hstep : finalize_commitment_hash env (h, st) =
        (none, ({ h with finalization_ix := h.finalization_ix + 1 },
          update_mt h st h.finalization_ix)) := by
      simp [finalize_commitment_hash, hact, hfin, hix, hroom, hne]
    have hptr : (update_mt h st h.finalization_ix).next_commitment_ptr =
        st.next_commitment_ptr := by
      simp [update_mt, hne]
    obtain ⟨st'', heq, hp2⟩ :=
      ih { h with finalization_ix := h.finalization_ix + 1 }
        (update_mt h st h.finalization_ix) hact hix
        (show h.finalization_ix + 1 + k ≤ h.batching_rate by omega)
        (show (update_mt h st h.finalization_ix).next_commitment_ptr +
            commitments_per_batch h.batching_rate ≤
            MT_COMMITMENT_COUNT env by rw [hptr]; exact hroom)
    refine ⟨st'', ?_, by rw [hp2, hptr]⟩
    simp only [finalizeN]
    rw [hstep]
    simp only [andThenStep]
    rw [heq]
    simp only [Prod.mk.injEq, CommitmentHashingAccount.mk.injEq, and_true,
      true_and]
    omega

theorem finalizeN_add (env : Env) (m n : Nat) :
    ∀ p, finalizeN env (m + n) p =
      andThenStep (finalizeN env m p) (finalizeN env n) := by
  induction m with
  | zero =>
    intro p
    simp [finalizeN, andThenStep]
  | succ m ih =>
    intro p
    have h1 : m + 1 + n = (m + n) + 1 := by omega
    rw [h1]
    simp only [finalizeN]
    rcases hf : finalize_commitment_hash env p with ⟨e, p'⟩
    cases e with
    | none => simp [andThenStep, hf, ih p']
    | some err => simp [andThenStep, hf]

/-- C2: for every active, set-up batch with batching rate `b` whose
bottom-up hash computation is complete and which still fits the tree,
the first `b` calls to `finalize_commitment_hash` each succeed, advance
only the finalization cursor and leave `next_commitment_ptr` and the
flags unchanged; after exactly `b + 1` successful calls — i.e. on the
call where the cursor reaches `b` — `next_commitment_ptr` has advanced
by exactly `2^b` (the batch leaf count) and both `is_active` and
`is_setup` are cleared, returning the slot to Idle. -/
theorem finalize_commitment_hash_batch (env : Env)
    (h : CommitmentHashingAccount) (st : StorageAccount)
    (hact : h.is_active = true) (hsetup : h.is_setup = true)
    (hfin0 : h.finalization_ix = 0)
    (hix : env.ixCountForBatch h.batching_rate ≤ h.instruction)
    (hroom : st.next_commitment_ptr + commitments_per_batch h.batching_rate ≤
      MT_COMMITMENT_COUNT env) :
    (∀ k, k ≤ h.batching_rate → ∃ st',
      finalizeN env k (h, st) =
        (none, ({ h with finalization_ix := k }, st')) ∧
      st'.next_commitment_ptr = st.next_commitment_ptr) ∧
    ∃ st'', finalizeN env (h.batching_rate + 1) (h, st) =
        (none, ({ h with
          finalization_ix := h.batching_rate + 1,
          is_active := false, is_setup := false }, st'')) ∧
      st''.next_commitment_ptr =
        st.next_commitment_ptr + commitments_per_batch h.batching_rate := by
  have part1 : ∀ k, k ≤ h.batching_rate → ∃ st',
      finalizeN env k (h, st) =
        (none, ({ h with finalization_ix := k }, st')) ∧
      st'.next_commitment_ptr = st.next_commitment_ptr := by
    intro k hk
    obtain ⟨st', heq, hp⟩ := finalizeN_ok env k h st hact hix (by omega) hroom
    refine ⟨st', ?_, hp⟩
    rw [heq]
    simp [hfin0]
  refine ⟨part1, ?_⟩
  obtain ⟨st', heq, hp⟩ := part1 h.batching_rate (Nat.le_refl _)
  have hfinal : finalize_commitment_hash env
      ({ h with finalization_ix := h.batching_rate }, st') =
      (none, ({ h with
        finalization_ix := h.batching_rate + 1,
        is_active := false, is_setup := false },
        update_mt { h with finalization_ix := h.batching_rate } st'
          h.batching_rate)) := by
    simp [finalize_commitment_hash, hact, hix, hp, hroom]
  refine ⟨update_mt { h with finalization_ix := h.batching_rate } st'
    h.batching_rate, ?_, ?_⟩
  · rw [finalizeN_add env h.batching_rate 1 (h, st), heq]
    simp only [andThenStep, finalizeN]
    rw [hfinal]
  · simp [update_mt, hp]

/-- Evaluation of `finalize_commitment_hash_batch` on a concrete rate-1
batch in the empty height-3 tree. -/
theorem finalize_commitment_hash_batch_witness :
    (∀ k, k ≤ wHBatch.batching_rate → ∃ st',
      finalizeN wEnv k (wHBatch, wSt) =
        (none, ({ wHBatch with finalization_ix := k }, st')) ∧
      st'.next_commitment_ptr = wSt.next_commitment_ptr) ∧
    ∃ st'', finalizeN wEnv (wHBatch.batching_rate + 1) (wHBatch, wSt) =
        (none, ({ wHBatch with
          finalization_ix := wHBatch.batching_rate + 1,
          is_active := false, is_setup := false }, st'')) ∧
      st''.next_commitment_ptr =
        wSt.next_commitment_ptr + commitments_per_batch wHBatch.batching_rate :=
  finalize_commitment_hash_batch wEnv wHBatch wSt (by rfl) (by rfl) (by rfl)
    (by decide) (by decide)

/-! ## C4 / C3: the five fund flows of `store_base_commitment` and its
failure atomicity -/

theorem tryTransfer_shape (s : ChainState) (src dst : AccountId)
    (tid amt : Nat) :
    tryTransfer s src dst tid amt =
        (none, applyTransfer s src dst tid amt) ∨
      tryTransfer s src dst tid amt = (some .InsufficientFunds, s) := by
  unfold tryTransfer
  split_ifs <;> simp

theorem tryAllocate_shape (idx : Nat) (s : ChainState) :
    tryAllocate idx s = (none, { s with
        slots := updSlot s.slots idx (some ⟨false, .feePayer, 0, 0, 0, 0⟩) }) ∨
      tryAllocate idx s = (some .AccountAlreadyAllocated, s) := by
  unfold tryAllocate
  split_ifs <;> simp

theorem tryBufferInsert_shape (v : Nat) (s : ChainState) :
    tryBufferInsert v s = (none, { s with buffer := s.buffer ++ [v] }) ∨
      tryBufferInsert v s = (some .DuplicateError, s) := by
  unfold tryBufferInsert
  split_ifs <;> simp

/-- Every run of the effectful tail either succeeds with the full
post-state or stops at one of its three error sources. -/
theorem storeSteps_spec (env : Env) (req : BaseCommitmentHashRequest)
    (idx : Nat) (s : ChainState) :
    storeSteps env req idx s = (none, storePost env req idx s) ∨
    (storeSteps env req idx s).1 = some .InsufficientFunds ∨
    (storeSteps env req idx s).1 = some .AccountAlreadyAllocated ∨
    (storeSteps env req idx s).1 = some .DuplicateError := by
  unfold storeSteps
  rcases tryTransfer_shape s .sender .feePayer req.token_id
      (env.computationFeeToken - env.subvention) with h1 | h1
  · rw [h1]; simp only [andThenStep]
    rcases tryTransfer_shape (applyTransfer s .sender .feePayer req.token_id
        (env.computationFeeToken - env.subvention)) .feePayer .pool 0
        env.computationFeeLamports with h2 | h2
    · rw [h2]; simp only [andThenStep]
      rcases tryTransfer_shape _ .sender .feeCollector req.token_id
          env.networkFee with h3 | h3
      · rw [h3]; simp only [andThenStep]
        rcases tryTransfer_shape _ .sender .pool req.token_id req.amount
            with h4 | h4
        · rw [h4]; simp only [andThenStep]
          rcases tryAllocate_shape idx _ with h5 | h5
          · rw [h5]; simp only [andThenStep]
            rcases tryTransfer_shape _ .feeCollector .feePayer req.token_id
                env.subvention with h6 | h6
            · rw [h6]; simp only [andThenStep]
              rcases tryBufferInsert_shape req.base_commitment _ with h7 | h7
              · rw [h7]; simp only [andThenStep]
                exact Or.inl rfl
              · rw [h7]; simp [andThenStep]
            · rw [h6]; simp [andThenStep]
          · rw [h5]; simp [andThenStep]
        · rw [h4]; simp [andThenStep]
      · rw [h3]; simp [andThenStep]
    · rw [h2]; simp [andThenStep]
  · rw [h1]; simp [andThenStep]

theorem store_success_shape (env : Env) (req : BaseCommitmentHashRequest)
    (idx : Nat) (s : ChainState)
    (hok : (store_base_commitment env req idx s).1 = none) :
    store_base_commitment env req idx s = (none, storePost env req idx s) := by
  unfold store_base_commitment at hok ⊢
  cases hchk : storeChecks env req with
  | some e => rw [hchk] at hok; exact Option.noConfusion hok
  | none =>
    rw [hchk] at hok
    have hok2 : (storeSteps env req idx s).1 = none := hok
    show storeSteps env req idx s = (none, storePost env req idx s)
    rcases storeSteps_spec env req idx s with hsp | hsp | hsp | hsp
    · exact hsp
    · rw [hok2] at hsp; exact Option.noConfusion hsp
    · rw [hok2] at hsp; exact Option.noConfusion hsp
    · rw [hok2] at hsp; exact Option.noConfusion hsp

theorem tryTransfer_ok (s : ChainState) (src dst : AccountId)
    (tid amt : Nat) (h : amt ≤ s.bal src tid) :
    tryTransfer s src dst tid amt = (none, applyTransfer s src dst tid amt) := by
  simp [tryTransfer, h]

theorem tryAllocate_ok (idx : Nat) (s : ChainState)
    (h : s.slots idx = none) :
    tryAllocate idx s = (none, { s with
      slots := updSlot s.slots idx (some ⟨false, .feePayer, 0, 0, 0, 0⟩) }) := by
  simp [tryAllocate, h]

theorem tryBufferInsert_ok (v : Nat) (s : ChainState) (h : v ∉ s.buffer) :
    tryBufferInsert v s = (none, { s with buffer := s.buffer ++ [v] }) := by
  simp [tryBufferInsert, h]

theorem tryBufferInsert_dup (v : Nat) (s : ChainState) (h : v ∈ s.buffer) :
    tryBufferInsert v s = (some .DuplicateError, s) := by
  simp [tryBufferInsert, h]

theorem store_base_commitment_ok (env : Env)
    (req : BaseCommitmentHashRequest) (idx : Nat) (s : ChainState)
    (hok : storeOk env req idx s) :
    store_base_commitment env req idx s = (none, storePost env req idx s) := by
  obtain ⟨h1, h2, h3, h4, h5, h6, h7, h8, h9, h10, h11, h12, h13, h14, h15,
    h16⟩ := hok
  have hchk : storeChecks env req = none := by
    unfold storeChecks
    split_ifs <;> first | rfl | (exfalso; omega) | simp_all
  unfold store_base_commitment
  rw [hchk]
  unfold storeSteps
  have hb1 : env.computationFeeToken - env.subvention ≤
      s.bal .sender req.token_id := by omega
  rw [tryTransfer_ok _ _ _ _ _ hb1]
  simp only [andThenStep]
  set A1 := applyTransfer s .sender .feePayer req.token_id
    (env.computationFeeToken - env.subvention) with hA1
  have hb2 : env.computationFeeLamports ≤ A1.bal .feePayer 0 := by
    by_cases h0 : req.token_id = 0
    · simp only [hA1, applyTransfer, updBal, h0]
      simp
      omega
    · have h0' : ¬((0 : Nat) = req.token_id) := fun hh => h0 hh.symm
      simp only [hA1, applyTransfer, updBal]
      simp [h0, h0']
      omega
  rw [tryTransfer_ok _ _ _ _ _ hb2]
  simp only [andThenStep]
  set A2 := applyTransfer A1 .feePayer .pool 0 env.computationFeeLamports
    with hA2
  have hb3 : env.networkFee ≤ A2.bal .sender req.token_id := by
    by_cases h0 : req.token_id = 0
    · rw [h0] at h12 h14
      simp only [hA2, hA1, applyTransfer, updBal, h0]
      simp
      omega
    · have h0' : ¬((0 : Nat) = req.token_id) := fun hh => h0 hh.symm
      simp only [hA2, hA1, applyTransfer, updBal]
      simp [h0, h0']
      omega
  rw [tryTransfer_ok _ _ _ _ _ hb3]
  simp only [andThenStep]
  set A3 := applyTransfer A2 .sender .feeCollector req.token_id
    env.networkFee with hA3
  have hb4 : req.amount ≤ A3.bal .sender req.token_id := by
    by_cases h0 : req.token_id = 0
    · rw [h0] at h12 h14
      simp only [hA3, hA2, hA1, applyTransfer, updBal, h0]
      simp
      omega
    · have h0' : ¬((0 : Nat) = req.token_id) := fun hh => h0 hh.symm
      simp only [hA3, hA2, hA1, applyTransfer, updBal]
      simp [h0, h0']
      omega
  rw [tryTransfer_ok _ _ _ _ _ hb4]
  simp only [andThenStep]
  set A4 := applyTransfer A3 .sender .pool req.token_id req.amount with hA4
  have hb5 : A4.slots idx = none := by
    simp [hA4, hA3, hA2, hA1, applyTransfer]
    exact h15
  rw [tryAllocate_ok _ _ hb5]
  simp only [andThenStep]
  set A5 : ChainState := { A4 with
    slots := updSlot A4.slots idx (some ⟨false, .feePayer, 0, 0, 0, 0⟩) }
    with hA5
  have hb6 : env.subvention ≤ A5.bal .feeCollector req.token_id := by
    by_cases h0 : req.token_id = 0
    · rw [h0] at h12 h14
      simp only [hA5, hA4, hA3, hA2, hA1, applyTransfer, updBal, h0]
      simp
      omega
    · have h0' : ¬((0 : Nat) = req.token_id) := fun hh => h0 hh.symm
      simp only [hA5, hA4, hA3, hA2, hA1, applyTransfer, updBal]
      simp [h0, h0']
      omega
  rw [tryTransfer_ok _ _ _ _ _ hb6]
  simp only [andThenStep]
  set A6 := applyTransfer A5 .feeCollector .feePayer req.token_id
    env.subvention with hA6
  have hb7 : req.base_commitment ∉ A6.buffer := by
    simp [hA6, hA5, hA4, hA3, hA2, hA1, applyTransfer]
    exact h16
  rw [tryBufferInsert_ok _ _ hb7]
  simp only [andThenStep]
  rw [hA6, hA5, hA4, hA3, hA2, hA1]
  rfl

/-- C4: every request accepted by `store_base_commitment` executes
exactly five fund flows, in order: the sender pays the fee payer the
computation fee minus the subvention (token), the fee payer pays the pool
the computation fee (lamports), the sender pays the fee collector the
network fee (token), the sender pays the pool the principal amount
(token), and the fee collector pays the fee payer the subvention
(token). -/
theorem store_base_commitment_five_flows (env : Env)
    (req : BaseCommitmentHashRequest) (idx : Nat) (s : ChainState)
    (hok : (store_base_commitment env req idx s).1 = none) :
    (store_base_commitment env req idx s).2.transfers = s.transfers ++
      [⟨.sender, .feePayer, req.token_id,
         env.computationFeeToken - env.subvention⟩,
       ⟨.feePayer, .pool, 0, env.computationFeeLamports⟩,
       ⟨.sender, .feeCollector, req.token_id, env.networkFee⟩,
       ⟨.sender, .pool, req.token_id, req.amount⟩,
       ⟨.feeCollector, .feePayer, req.token_id, env.subvention⟩] := by
  rw [store_success_shape env req idx s hok]
  simp [storePost, applyTransfer, List.append_assoc]

/-- Evaluation of `store_base_commitment_five_flows` on the concrete
valid request `wReq`. -/
theorem store_base_commitment_five_flows_witness :
    (store_base_commitment wEnv wReq 0 wState).2.transfers =
      wState.transfers ++
      [⟨.sender, .feePayer, wReq.token_id,
         wEnv.computationFeeToken - wEnv.subvention⟩,
       ⟨.feePayer, .pool, 0, wEnv.computationFeeLamports⟩,
       ⟨.sender, .feeCollector, wReq.token_id, wEnv.networkFee⟩,
       ⟨.sender, .pool, wReq.token_id, wReq.amount⟩,
       ⟨.feeCollector, .feePayer, wReq.token_id, wEnv.subvention⟩] :=
  store_base_commitment_five_flows wEnv wReq 0 wState (by decide)

/-- C3: whenever `store_base_commitment` returns an error, no partial
fund movement persists: the persisted state (spec §5 atomic-step
semantics, `persisted`) is exactly the pre-call state, so none of the
five transfers has taken effect.  Moreover every pure validation failure
(amount bounds, price accounts, non-scalar values, the reserved zero
base commitment, fee version, batching rate, token-account verification,
fee underflow) occurs before the first transfer, so for those errors
even the raw in-memory state is untouched. -/
theorem store_base_commitment_error_atomic (env : Env)
    (req : BaseCommitmentHashRequest) (idx : Nat) (s : ChainState)
    (e : ElusivError)
    (herr : (store_base_commitment env req idx s).1 = some e) :
    persisted (store_base_commitment env req idx) s = s ∧
    ((e = .InvalidAmount ∨ e = .InvalidAccount ∨ e = .NonScalarValue ∨
      e = .InvalidInstructionData ∨ e = .InvalidFeeVersion ∨
      e = .InvalidBatchingRate ∨ e = .TokenUnderflow) →
      (store_base_commitment env req idx s).2 = s) := by
  constructor
  · simp [persisted, herr]
  · intro hv
    unfold store_base_commitment at herr ⊢
    cases hchk : storeChecks env req with
    | some e' => simp only [hchk]
    | none =>
      simp only [hchk] at herr ⊢
      exfalso
      rcases storeSteps_spec env req idx s with hsp | hsp | hsp | hsp
      · rw [hsp] at herr; exact Option.noConfusion herr
      · rw [herr] at hsp
        obtain rfl := Option.some.inj hsp
        simp at hv
      · rw [herr] at hsp
        obtain rfl := Option.some.inj hsp
        simp at hv
      · rw [herr] at hsp
        obtain rfl := Option.some.inj hsp
        simp at hv

/-- Evaluation of `store_base_commitment_error_atomic` on a concrete
stale-fee-version request, rejected before any fund movement. -/
theorem store_base_commitment_error_atomic_witness :
    persisted (store_base_commitment wEnv wReqBadFee 0) wState = wState ∧
    (store_base_commitment wEnv wReqBadFee 0 wState).2 = wState :=
  have h := store_base_commitment_error_atomic wEnv wReqBadFee 0 wState
    .InvalidFeeVersion (by decide)
  ⟨h.1, h.2 (by simp)⟩

/-! ## C1: the full base-commitment pipeline -/

theorem advanceN_ok (env : Env) (idx : Nat) :
    ∀ (n : Nat) (s : ChainState) (h : BaseCommitmentHashingAccount),
    s.slots idx = some h → h.is_active = true →
    h.instruction + n ≤ env.hp.IX_COUNT →
    advanceN env idx n s = (none, { s with
      slots := updSlot s.slots idx (some (advancedAccount env h n)) }) := by
  intro n
  induction n with
  | zero =>
    intro s h hs hact hle
    have hupd : updSlot s.slots idx (some (advancedAccount env h 0)) =
        s.slots := by
      funext j
      unfold updSlot
      by_cases hj : j = idx
      · rw [if_pos hj, hj, hs]
        rfl
      · rw [if_neg hj]
    simp only [advanceN]
    rw [hupd]
  | succ n ih =>
    intro s h hs hact hle
    have hlt : h.instruction < env.hp.IX_COUNT := by omega
    simp only [advanceN]
    have hty : compute_base_commitment_hash_chain env idx s =
        (none, { s with
          slots := updSlot s.slots idx (some (advancedAccount env h 1)) }) := by
      simp only [compute_base_commitment_hash_chain, hs]
      simp [compute_base_commitment_hash, base_commitment_hash_step, hact,
        hlt, advancedAccount]
    rw [hty]
    simp only [andThenStep]
    rw [ih { s with
        slots := updSlot s.slots idx (some (advancedAccount env h 1)) }
      (advancedAccount env h 1) (by simp [updSlot]) hact
      (by show h.instruction + 1 + n ≤ env.hp.IX_COUNT; omega)]
    have hcomp : advancedAccount env (advancedAccount env h 1) n =
        advancedAccount env h (n + 1) := by
      simp only [advancedAccount]
      rw [← Function.iterate_add_apply]
      have e1 : h.instruction + 1 + n = h.instruction + (n + 1) := by omega
      rw [e1]
    simp only [hcomp, updSlot_updSlot]

/-- Success shape of `finalize_base_commitment_hash`: when every guard
passes and the queue has room, the compensation is paid, one entry is
appended and the slot is closed. -/
theorem finalize_base_ok (env : Env) (caller : AccountId) (idx fv : Nat)
    (s : ChainState) (h : BaseCommitmentHashingAccount)
    (hs : s.slots idx = some h) (hfv : h.fee_version = fv)
    (hact : h.is_active = true) (hfp : h.fee_payer = caller)
    (hix : h.instruction = env.hp.IX_COUNT)
    (hbal : env.baseCommitmentHashFee ≤ s.bal .pool 0)
    (hcap : s.queue.length < env.queueCapacity) :
    finalize_base_commitment_hash env caller idx fv s =
      (none, { applyTransfer s .pool caller 0 env.baseCommitmentHashFee with
        queue := s.queue ++ [{
          commitment := env.hp.resultOf h.hash_state
          fee_version := fv
          min_batching_rate := h.min_batching_rate }]
        slots := updSlot s.slots idx none }) := by
  simp only [finalize_base_commitment_hash, hs]
  simp [hfv, hact, hfp, hix, hbal, enqueue, applyTransfer, hcap]

/-- C1: for every valid request (`storeOk`), with room in the queue and
compensation funds in the pool, calling `store_base_commitment`, then
`compute_base_commitment_hash` exactly `IX_COUNT` times, then
`finalize_base_commitment_hash` once, succeeds and appends exactly one
entry to the Commitment Queue, carrying the commitment equal to the
reference multi-round hash `poseidon(base_commitment,
amount + token_id * 2^64)`, the request's `fee_version` and the stored
`min_batching_rate`; the hashing slot is released. -/
theorem base_pipeline_correct (env : Env)
    (req : BaseCommitmentHashRequest) (idx : Nat) (s : ChainState)
    (hok : storeOk env req idx s)
    (hq : s.queue.length < env.queueCapacity)
    (hpool : env.baseCommitmentHashFee ≤ s.bal .pool 0) :
    ∃ s' : ChainState,
      basePipeline env .feePayer idx req s = (none, s') ∧
      s'.queue = s.queue ++ [{
        commitment := poseidonHash env.hp req.base_commitment
          (req.amount + req.token_id * 2 ^ 64)
        fee_version := req.fee_version
        min_batching_rate := req.min_batching_rate }] ∧
      s'.slots idx = none := by
  unfold basePipeline
  rw [store_base_commitment_ok env req idx s hok]
  simp only [andThenStep]
  set P := storePost env req idx s with hP
  have hslot : P.slots idx = some (seededAccount env req) := by
    rw [hP]; simp [storePost, updSlot]
  rw [advanceN_ok env idx env.hp.IX_COUNT P (seededAccount env req) hslot
    rfl (by simp [seededAccount])]
  simp only [andThenStep]
  set acct2 : BaseCommitmentHashingAccount :=
    advancedAccount env (seededAccount env req) env.hp.IX_COUNT with hacct2
  set S2 : ChainState := { P with slots := updSlot P.slots idx (some acct2) }
    with hS2
  have hs2 : S2.slots idx = some acct2 := by rw [hS2]; simp [updSlot]
  have hq2 : S2.queue = s.queue := by
    rw [hS2, hP]; simp [storePost, applyTransfer]
  have hbal2 : env.baseCommitmentHashFee ≤ S2.bal .pool 0 := by
    rw [hS2, hP]
    by_cases h0 : req.token_id = 0
    · simp only [storePost, applyTransfer, updBal, h0]
      simp
      omega
    · have h0' : ¬((0 : Nat) = req.token_id) := fun hh => h0 hh.symm
      simp only [storePost, applyTransfer, updBal]
      simp [h0, h0']
      omega
  rw [finalize_base_ok env .feePayer idx req.fee_version S2 acct2 hs2
    (by rw [hacct2]; simp [advancedAccount, seededAccount])
    (by rw [hacct2]; simp [advancedAccount, seededAccount])
    (by rw [hacct2]; simp [advancedAccount, seededAccount])
    (by rw [hacct2]; simp [advancedAccount, seededAccount]) hbal2
    (by rw [hq2]; exact hq)]
  refine ⟨_, rfl, ?_, ?_⟩
  · rw [hq2, hacct2]
    simp [advancedAccount, seededAccount, poseidonHash]
  · simp [updSlot]

/-- Evaluation of `base_pipeline_correct` on the concrete valid request
`wReq` in `wEnv` (two hash rounds). -/
theorem base_pipeline_correct_witness :
    ∃ s' : ChainState,
      basePipeline wEnv .feePayer 0 wReq wState = (none, s') ∧
      s'.queue = wState.queue ++ [{
        commitment := poseidonHash wEnv.hp wReq.base_commitment
          (wReq.amount + wReq.token_id * 2 ^ 64)
        fee_version := wReq.fee_version
        min_batching_rate := wReq.min_batching_rate }] ∧
      s'.slots 0 = none :=
  base_pipeline_correct wEnv wReq 0 wState (by decide) (by decide)
    (by decide)

/-! ## C8: immediate duplicate re-submission -/

/-- C8: re-submitting a request with an identical `base_commitment`
immediately after a successful `store_base_commitment` — at a fresh
hashing-slot index and with funds for a second round of fees — fails
with the duplicate error, because the value is still pending in the
duplicate buffer (reached after the validations, the five transfers and
the allocation all pass again). -/
theorem store_base_commitment_duplicate (env : Env)
    (req : BaseCommitmentHashRequest) (idx1 idx2 : Nat) (s : ChainState)
    (hok : storeOk env req idx1 s)
    (hne : ¬(idx2 = idx1))
    (hslot2 : s.slots idx2 = none)
    (hs2 : 2 * (env.computationFeeToken - env.subvention + env.networkFee +
      req.amount) ≤ s.bal .sender req.token_id)
    (hf2 : 2 * env.computationFeeLamports ≤ s.bal .feePayer 0)
    (hc2 : 2 * env.subvention ≤ s.bal .feeCollector req.token_id) :
    (store_base_commitment env req idx2 (storePost env req idx1 s)).1 =
      some .DuplicateError := by
  obtain ⟨h1, h2, h3, h4, h5, h6, h7, h8, h9, h10, h11, h12, h13, h14, h15,
    h16⟩ := hok
  have hchk : storeChecks env req = none := by
    unfold storeChecks
    split_ifs <;> first | rfl | (exfalso; omega) | simp_all
  unfold store_base_commitment
  rw [hchk]
  show (storeSteps env req idx2 (storePost env req idx1 s)).1 =
    some .DuplicateError
  unfold storeSteps
  set P := storePost env req idx1 s with hP
  have hb1 : env.computationFeeToken - env.subvention ≤
      P.bal .sender req.token_id := by
    by_cases h0 : req.token_id = 0
    · rw [h0] at hs2
      simp only [hP, storePost, applyTransfer, updBal, h0]
      simp
      omega
    · have h0' : ¬((0 : Nat) = req.token_id) := fun hh => h0 hh.symm
      simp only [hP, storePost, applyTransfer, updBal]
      simp [h0, h0']
      omega
  rw [tryTransfer_ok _ _ _ _ _ hb1]
  simp only [andThenStep]
  set B1 := applyTransfer P .sender .feePayer req.token_id
    (env.computationFeeToken - env.subvention) with hB1
  have hb2 : env.computationFeeLamports ≤ B1.bal .feePayer 0 := by
    by_cases h0 : req.token_id = 0
    · rw [h0] at hs2 hc2
      simp only [hB1, hP, storePost, applyTransfer, updBal, h0]
      simp
      omega
    · have h0' : ¬((0 : Nat) = req.token_id) := fun hh => h0 hh.symm
      simp only [hB1, hP, storePost, applyTransfer, updBal]
      simp [h0, h0']
      omega
  rw [tryTransfer_ok _ _ _ _ _ hb2]
  simp only [andThenStep]
  set B2 := applyTransfer B1 .feePayer .pool 0 env.computationFeeLamports
    with hB2
  have hb3 : env.networkFee ≤ B2.bal .sender req.token_id := by
    by_cases h0 : req.token_id = 0
    · rw [h0] at hs2
      simp only [hB2, hB1, hP, storePost, applyTransfer, updBal, h0]
      simp
      omega
    · have h0' : ¬((0 : Nat) = req.token_id) := fun hh => h0 hh.symm
      simp only [hB2, hB1, hP, storePost, applyTransfer, updBal]
      simp [h0, h0']
      omega
  rw [tryTransfer_ok _ _ _ _ _ hb3]
  simp only [andThenStep]
  set B3 := applyTransfer B2 .sender .feeCollector req.token_id
    env.networkFee with hB3
  have hb4 : req.amount ≤ B3.bal .sender req.token_id := by
    by_cases h0 : req.token_id = 0
    · rw [h0] at hs2
      simp only [hB3, hB2, hB1, hP, storePost, applyTransfer, updBal, h0]
      simp
      omega
    · have h0' : ¬((0 : Nat) = req.token_id) := fun hh => h0 hh.symm
      simp only [hB3, hB2, hB1, hP, storePost, applyTransfer, updBal]
      simp [h0, h0']
      omega
  rw [tryTransfer_ok _ _ _ _ _ hb4]
  simp only [andThenStep]
  set B4 := applyTransfer B3 .sender .pool req.token_id req.amount with hB4
  have hb5 : B4.slots idx2 = none := by
    simp only [hB4, hB3, hB2, hB1, hP, storePost, applyTransfer]
    simp [updSlot, hne]
    exact hslot2
  rw [tryAllocate_ok _ _ hb5]
  simp only [andThenStep]
  set B5 : ChainState := { B4 with
    slots := updSlot B4.slots idx2 (some ⟨false, .feePayer, 0, 0, 0, 0⟩) }
    with hB5
  have hb6 : env.subvention ≤ B5.bal .feeCollector req.token_id := by
    by_cases h0 : req.token_id = 0
    · rw [h0] at hc2
      simp only [hB5, hB4, hB3, hB2, hB1, hP, storePost, applyTransfer,
        updBal, h0]
      simp
      omega
    · have h0' : ¬((0 : Nat) = req.token_id) := fun hh => h0 hh.symm
      simp only [hB5, hB4, hB3, hB2, hB1, hP, storePost, applyTransfer,
        updBal]
      simp [h0, h0']
      omega
  rw [tryTransfer_ok _ _ _ _ _ hb6]
  simp only [andThenStep]
  set B6 := applyTransfer B5 .feeCollector .feePayer req.token_id
    env.subvention with hB6
  have hb7 : req.base_commitment ∈ B6.buffer := by
    simp only [hB6, hB5, hB4, hB3, hB2, hB1, hP, storePost, applyTransfer]
    simp
  rw [tryBufferInsert_dup _ _ hb7]

/-- Evaluation of `store_base_commitment_duplicate`: `wReq` accepted at
slot 0, then re-submitted at slot 1 and rejected as a duplicate. -/
theorem store_base_commitment_duplicate_witness :
    (store_base_commitment wEnv wReq 1 (storePost wEnv wReq 0 wState)).1 =
      some .DuplicateError :=
  store_base_commitment_duplicate wEnv wReq 0 1 wState (by decide)
    (by decide) (by decide) (by decide) (by decide) (by decide)

end Elusiv
